import Mathlib

/-!
# Verification of promscale's inverted-labels cache and database probe table

This file embeds, in Lean 4, the two Go source files of the repository:

* the label identity cache adapter (`pkg/pgmodel/cache`-style file): types
  `LabelKey` / `LabelInfo`, the adapter `InvertedLabelsCache` with its
  constructor `NewInvertedLablesCache` and methods `GetLabelsId` / `Put`;
* the database probe table (`pkg/pgmodel/metrics/database/metrics.go`): the
  declared `metrics` table of `metricQueryWrap` rows and the lookup functions
  `GetMetric` / `getMetric`.

The bounded eviction engine (`pkg/clockcache`) is not part of the provided
sources; it is modelled from the specification's contract for the
"Bounded Concurrent Eviction Engine" (capacity check, in-place replacement,
CLOCK second-chance eviction).  Definitions modelled this way carry a doc
comment starting with `Modelled from the spec:`.

Go machine integers are modelled as `Nat` (for `uint64` sizes and weights,
which never go negative) and `Int` (for the `int32` label id / position);
no arithmetic in the embedded code can overflow at realistic string lengths,
and no claim depends on wrap-around.  Go `len` on a `string` counts bytes,
modelled by `String.utf8ByteSize`.
-/

/-- Go's `len` on a string: the number of bytes of its UTF-8 encoding. -/
def goLen (s : String) : Nat := s.utf8ByteSize

/-- `LabelInfo` from the cache source: resolved identity of a label pair.
Go declares the fields as `int32`; they are modelled as `Int`. -/
structure LabelInfo where
  LabelID : Int
  Pos : Int
deriving DecidableEq

/-- `LabelKey` from the cache source: the (metric name, label name,
label value) composite key. -/
structure LabelKey where
  MetricName : String
  Name : String
  Value : String
deriving DecidableEq

/-- `NewLabelKey` from the cache source. -/
def NewLabelKey (metricName name value : String) : LabelKey :=
  { MetricName := metricName, Name := name, Value := value }

/-- `LabelKey.len` from the cache source:
`len(lk.MetricName) + len(lk.Name) + len(lk.Value)` (byte lengths). -/
def LabelKey.len (lk : LabelKey) : Nat :=
  goLen lk.MetricName + goLen lk.Name + goLen lk.Value

/-- `NewLabelInfo` from the cache source (the parameter is spelled
`lableID` in the Go code as well). -/
def NewLabelInfo (lableID pos : Int) : LabelInfo :=
  { LabelID := lableID, Pos := pos }

/-- `LabelInfo.len` from the cache source: the constant 8 (two 4-byte ints). -/
def LabelInfo.len (_li : LabelInfo) : Nat := 8

/-- The engine stores values of Go's empty-interface type; the adapter reads
them back with the dynamic assertion `id.(LabelInfo)`.  The dynamic value is
modelled as a sum: `info` is a stored `LabelInfo`, `other` stands for a value
of any other dynamic type (the case in which the assertion would panic). -/
inductive CacheVal where
  | info (i : LabelInfo)
  | other (tag : Nat)
deriving DecidableEq

/-- `true` exactly when the dynamic assertion `id.(LabelInfo)` would succeed. -/
def CacheVal.isInfo : CacheVal → Bool
  | .info _ => true
  | .other _ => false

namespace clockcache

/-- Modelled from the spec: one slot of the eviction engine — key, value,
byte-weight and the CLOCK recency flag (§3, entity `CacheEntry`). -/
structure CacheEntry where
  key : LabelKey
  value : CacheVal
  weight : Nat
  flag : Bool
deriving DecidableEq

/-- Total byte-weight currently occupied by a list of entries. -/
def occupied : List CacheEntry → Nat
  | [] => 0
  | e :: l => e.weight + occupied l

/-- Modelled from the spec: the engine state — a fixed capacity and the entry
table.  The circular scan order is represented by the list order, with the
clock cursor at the head; a rotation of the list moves the cursor. -/
structure Cache where
  capacity : Nat
  entries : List CacheEntry
deriving DecidableEq

/-- Modelled from the spec: the CLOCK eviction loop of `Insert` (§4.2 step 3).
While `occupied + w > cap`, examine the entry under the cursor: if its recency
flag is set, clear it and advance (second chance, modelled by rotating the
entry to the back of the list); otherwise evict it.  The scan stops as soon as
enough weight is free. -/
def evict (cap w : Nat) : List CacheEntry → List CacheEntry
  | [] => []
  | e :: rest =>
    if occupied (e :: rest) + w ≤ cap then e :: rest
    else if e.flag then evict cap w (rest ++ [{ e with flag := false }])
    else evict cap w rest
termination_by l => l.length + (l.filter (fun x => x.flag)).length
decreasing_by
  all_goals simp [List.filter_append, List.filter_cons, *]

/-- Modelled from the spec: `Engine.Get` (§4.2) — on a hit, set the entry's
recency flag and return the stored value; on a miss, return not-found with no
mutation. -/
def Cache.Get (c : Cache) (key : LabelKey) : Cache × Option CacheVal :=
  match c.entries.find? (fun e => e.key == key) with
  | some e =>
    ({ c with entries := c.entries.map fun e2 =>
        if e2.key == key then { e2 with flag := true } else e2 },
     some e.value)
  | none => (c, none)

/-- Modelled from the spec: `Engine.Insert` (§4.2) — reject an entry heavier
than the whole capacity; replace in place (value, weight, recency) when the
key exists; otherwise run CLOCK eviction until the entry fits and append it
with its recency flag set. -/
def Cache.Insert (c : Cache) (key : LabelKey) (val : CacheVal) (weight : Nat) :
    Cache × Option CacheVal × Bool :=
  if c.capacity < weight then (c, none, false)
  else match c.entries.find? (fun e => e.key == key) with
    | some old =>
      ({ c with entries := c.entries.map fun e =>
          if e.key == key then { e with value := val, weight := weight, flag := true } else e },
       some old.value, true)
    | none =>
      let es := evict c.capacity weight c.entries
      ({ c with entries := es ++ [{ key := key, value := val, weight := weight, flag := true }] },
       none, true)

/-- Modelled from the spec: `Construct(name, itemKindLabel, capacityBytes)` of
the engine (§6); the two label strings feed instrumentation only and carry no
cache semantics. -/
def WithMetrics (_name _itemKind : String) (size : Nat) : Cache :=
  { capacity := size, entries := [] }

end clockcache

/-- `InvertedLabelsCache` from the cache source: the typed adapter holding a
handle to the engine. -/
structure InvertedLabelsCache where
  cache : clockcache.Cache
deriving DecidableEq

/-- `NewInvertedLablesCache` from the cache source: rejects `size <= 0`
(for the Go `uint64` argument, exactly `size == 0`), otherwise wraps a fresh
engine constructed with `clockcache.WithMetrics "inverted_labels" "metric"`. -/
def NewInvertedLablesCache (size : Nat) : Except String InvertedLabelsCache :=
  if size ≤ 0 then .error "labels cache size must be > 0"
  else .ok { cache := clockcache.WithMetrics "inverted_labels" "metric" size }

/-- `GetLabelsId` from the cache source.  The Go body performs the dynamic
assertion `id.(LabelInfo)` on a hit; the assertion's panic is modelled by the
outer `Option` being `none`.  On a miss the Go code returns the zero value
`LabelInfo{}` and `false`. -/
def InvertedLabelsCache.GetLabelsId (c : InvertedLabelsCache) (key : LabelKey) :
    Option (InvertedLabelsCache × LabelInfo × Bool) :=
  match c.cache.Get key with
  | (cache2, some id) =>
    match id with
    | .info i => some ({ cache := cache2 }, i, true)
    | .other _ => none
  | (_, none) => some (c, { LabelID := 0, Pos := 0 }, false)

/-- The weight expression of `Put` in the cache source:
`uint64(key.len()) + uint64(val.len()) + 17`. -/
def putWeight (key : LabelKey) (val : LabelInfo) : Nat :=
  key.len + val.len + 17

/-- `Put` from the cache source: forwards to the engine's `Insert` with the
weight `putWeight key val` and returns the engine's `added` flag. -/
def InvertedLabelsCache.Put (c : InvertedLabelsCache) (key : LabelKey) (val : LabelInfo) :
    InvertedLabelsCache × Bool :=
  let r := c.cache.Insert key (CacheVal.info val) (putWeight key val)
  ({ cache := r.1 }, r.2.2)

/-- One public adapter operation: a lookup or an insertion. -/
inductive CacheOp where
  | lookup (key : LabelKey)
  | put (key : LabelKey) (val : LabelInfo)

/-- Apply one public adapter operation and keep the resulting state.  A lookup
whose dynamic assertion would panic (impossible on states reachable through
the adapter) leaves the state unchanged. -/
def applyOp (c : InvertedLabelsCache) : CacheOp → InvertedLabelsCache
  | .lookup key =>
    match c.GetLabelsId key with
    | some (c2, _, _) => c2
    | none => c
  | .put key val => (c.Put key val).1

/-- The adapter state after a sequence of public operations, starting from a
fresh cache of capacity `size`. -/
def runOps (size : Nat) (ops : List CacheOp) : InvertedLabelsCache :=
  ops.foldl applyOp { cache := clockcache.WithMetrics "inverted_labels" "metric" size }

/-- Modelled from the spec: `util.PromNamespace` — the project-wide metric
namespace prefix used by every declared probe metric. -/
def PromNamespace : String := "promscale"

/-- The prometheus option record: Go's `prometheus.CounterOpts` and
`prometheus.GaugeOpts` are both aliases of `prometheus.Opts`; only the fields
the probe table sets are modelled. -/
structure Opts where
  Namespace : String := ""
  Subsystem : String := ""
  Name : String := ""
  Help : String := ""
deriving DecidableEq

/-- A prometheus collector as seen by `metrics.go`: the probe table builds
only gauges and counters, while `other` stands for any further collector kind
a `prometheus.Collector` value could dynamically be (histogram, summary, ...)
— the case in which `getMetric`'s type switch panics. -/
inductive Collector where
  | gauge (opts : Opts)
  | counter (opts : Opts)
  | other (opts : Opts)
deriving DecidableEq

/-- `gauges` from metrics.go: one gauge collector per option record. -/
def gauges (opts : List Opts) : List Collector :=
  opts.map Collector.gauge

/-- `counters` from metrics.go: one counter collector per option record. -/
def counters (opts : List Opts) : List Collector :=
  opts.map Collector.counter

/-- `metricQueryWrap` from metrics.go: one probe — its collectors, its SQL
query, and the health-check marker. -/
structure metricQueryWrap where
  metrics : List Collector
  query : String
  isHealthCheck : Bool := false
deriving DecidableEq

/-- The declared probe table `metrics` from metrics.go, in declaration order,
with the exact option records and query strings of the source. -/
def metrics : List metricQueryWrap := [
  { metrics := counters [
      { Namespace := PromNamespace, Subsystem := "sql_database",
        Name := "health_check_total",
        Help := "Total number of database health checks performed." }],
    query := "SELECT 1",
    isHealthCheck := true },
  { metrics := gauges [
      { Namespace := PromNamespace, Subsystem := "sql_database",
        Name := "chunks_count",
        Help := "Total number of chunks in TimescaleDB currently." },
      { Namespace := PromNamespace, Subsystem := "sql_database",
        Name := "chunks_compressed_count",
        Help := "Total number of compressed chunks in TimescaleDB currently." }],
    query := "SELECT \n\t\t\t\tcount(*) FILTER (WHERE dropped=false AND compressed_chunk_id IS NULL)::BIGINT AS chunks_count,\n\t\t\t\tcount(*) FILTER (WHERE dropped=false AND compressed_chunk_id IS NOT NULL)::BIGINT AS chunks_compressed_count\n\t\t\tFROM _timescaledb_catalog.chunk" },
  { metrics := gauges [
      { Namespace := PromNamespace, Subsystem := "sql_database",
        Name := "chunks_metrics_expired_count",
        Help := "The number of metrics chunks soon to be removed by maintenance jobs." }],
    query := "WITH conf AS MATERIALIZED (SELECT _prom_catalog.get_default_retention_period() AS def_retention)\n\t\tSELECT count(*)::BIGINT\n\t\tFROM _timescaledb_catalog.dimension_slice ds\n\t\t\t INNER JOIN _timescaledb_catalog.dimension d ON (d.id = ds.dimension_id)\n\t\t\t INNER JOIN _timescaledb_catalog.hypertable h ON (h.id = d.hypertable_id)\n\t\t\t INNER JOIN _prom_catalog.metric m ON (m.table_name = h.table_name AND m.table_schema = h.schema_name)\n\t\t\t JOIN conf ON TRUE\n\t\tWHERE ds.range_start < _timescaledb_internal.time_to_internal(now() - coalesce(m.retention_period, conf.def_retention))\n\t\t  AND ds.range_end < _timescaledb_internal.time_to_internal(now() - coalesce(m.retention_period, conf.def_retention))" },
  { metrics := gauges [
      { Namespace := PromNamespace, Subsystem := "sql_database",
        Name := "chunks_metrics_uncompressed_count",
        Help := "The number of metrics chunks soon to be compressed by maintenance jobs." },
      { Namespace := PromNamespace, Subsystem := "sql_database",
        Name := "chunks_metrics_delayed_compression_count",
        Help := "The number of metrics chunks not-compressed due to a set delay." }],
    query := "WITH chunk_candidates AS MATERIALIZED (\n\t\t\t\tSELECT chcons.dimension_slice_id, h.table_name, h.schema_name\n\t\t\t\tFROM _timescaledb_catalog.chunk_constraint chcons\n\t\t\t\t\tINNER JOIN _timescaledb_catalog.chunk c ON c.id = chcons.chunk_id\n\t\t\t\t\tINNER JOIN _timescaledb_catalog.hypertable h ON h.id = c.hypertable_id\n\t\t\t\tWHERE c.dropped IS FALSE\n\t\t\t\tAND h.compression_state = 1 -- compression_enabled = TRUE\n\t\t\t\tAND (c.status & 1) != 1 -- only check for uncompressed chunks\n\t\t\t) \n\t\t\tSELECT \n\t\t\t\tcount(*) FILTER(WHERE m.delay_compression_until IS NULL OR m.delay_compression_until < now())::BIGINT AS uncompressed,\n\t\t\t\tcount(*) FILTER(WHERE m.delay_compression_until IS NOT NULL AND m.delay_compression_until >= now())::BIGINT AS delayed_compression\n\t\t\tFROM chunk_candidates cc\n\t\t\t\tINNER JOIN _timescaledb_catalog.dimension_slice ds ON ds.id = cc.dimension_slice_id\n\t\t\t\tINNER JOIN _prom_catalog.metric m ON (m.table_name = cc.table_name AND m.table_schema = cc.schema_name)\n\t\t\tWHERE NOT m.is_view\n\t\t\tAND ds.range_start <= _timescaledb_internal.time_to_internal(now() - interval '1 hour')\n\t\t\tAND ds.range_end <= _timescaledb_internal.time_to_internal(now() - interval '1 hour')" },
  { metrics := gauges [
      { Namespace := PromNamespace, Subsystem := "sql_database",
        Name := "chunks_traces_expired_count",
        Help := "The number of traces chunks soon to be removed by maintenance jobs." }],
    query := "WITH conf AS MATERIALIZED (SELECT coalesce(ps_trace.get_trace_retention_period(), interval '0 day') AS def_retention)\n\t\tSELECT count(*)::BIGINT\n\t\tFROM _timescaledb_catalog.dimension_slice ds\n\t\t\t INNER JOIN _timescaledb_catalog.dimension d ON (d.id = ds.dimension_id)\n\t\t\t INNER JOIN _timescaledb_catalog.hypertable h ON (h.id = d.hypertable_id)\n\t\t\t JOIN conf ON TRUE\n\t\tWHERE ds.range_start < _timescaledb_internal.time_to_internal(now() - conf.def_retention)\n\t\t  AND ds.range_end < _timescaledb_internal.time_to_internal(now() - conf.def_retention)\n\t\t  AND h.schema_name = '_ps_trace'" },
  { metrics := gauges [
      { Namespace := PromNamespace, Subsystem := "sql_database",
        Name := "chunks_traces_uncompressed_count",
        Help := "The number of traces chunks soon to be compressed by maintenance jobs." }],
    query := "WITH chunk_candidates AS MATERIALIZED (\n\t\t\t\tSELECT chcons.dimension_slice_id\n\t\t\t\tFROM _timescaledb_catalog.chunk_constraint chcons\n\t\t\t\t\tINNER JOIN _timescaledb_catalog.chunk c ON c.id = chcons.chunk_id\n\t\t\t\t\tINNER JOIN _timescaledb_catalog.hypertable h ON h.id = c.hypertable_id\n\t\t\t\tWHERE c.dropped IS FALSE\n\t\t\t\tAND h.schema_name = '_ps_trace'\n\t\t\t\tAND h.compression_state = 1 -- compression_enabled = TRUE\n\t\t\t\tAND (c.status & 1) != 1 -- only check for uncompressed chunks\n\t\t\t)\n\t\t\tSELECT count(*)::BIGINT\n\t\t\tFROM chunk_candidates cc\n\t\t\t\tINNER JOIN _timescaledb_catalog.dimension_slice ds ON ds.id = cc.dimension_slice_id\n\t\t\tWHERE ds.range_start <= _timescaledb_internal.time_to_internal(now() - interval '1 hour')\n\t\t\tAND ds.range_end <= _timescaledb_internal.time_to_internal(now() - interval '1 hour')" },
  { metrics := gauges [
      { Namespace := PromNamespace, Subsystem := "sql_database",
        Name := "compression_status",
        Help := "Compression status in TimescaleDB." }],
    query := "select (case when (value = 'true') then 1 else 0 end) from _prom_catalog.get_default_value('metric_compression') value" },
  { metrics := gauges [
      { Namespace := PromNamespace, Subsystem := "sql_database",
        Name := "worker_count",
        Help := "Number of TimescaleDB background workers." }],
    query := "select current_setting('timescaledb.max_background_workers')::BIGINT" },
  { metrics := gauges [
      { Namespace := PromNamespace, Subsystem := "sql_database",
        Name := "worker_maintenance_job",
        Help := "Number of Promscale maintenance workers." }],
    query := "select count(*) from timescaledb_information.jobs where proc_name = 'execute_maintenance_job'" },
  { metrics := gauges [
      { Namespace := PromNamespace, Subsystem := "sql_database",
        Name := "worker_maintenance_job_failed",
        Help := "Number of Promscale maintenance jobs that failed." }],
    query := "select count(stats.last_run_status)\n\t\t\tfrom timescaledb_information.job_stats stats\n\t\t\tinner join\n\t\t\ttimescaledb_information.jobs jobs\n\t\t\t\ton jobs.job_id = stats.job_id\n\t\t\twhere jobs.proc_name = 'execute_maintenance_job' and stats.last_run_status = 'Failed'" },
  { metrics := gauges [
      { Namespace := PromNamespace, Subsystem := "sql_database",
        Name := "worker_maintenance_job_start_timestamp_seconds",
        Help := "Timestamp in unix seconds for last successful execution of Promscale maintenance job." }],
    query := "SELECT extract(\n\t\t\tepoch FROM (SELECT COALESCE(\n\t\t\t\t(SELECT last_run_started_at AS job_running_since\n\t\t\t\t\tFROM   timescaledb_information.job_stats WHERE  last_run_started_at > last_successful_finish\n\t\t\t\t\t\tAND last_run_status = 'Success'\n\t\t\t\t),\n\t\t\t\tCURRENT_TIMESTAMP\n\t\t\t)))::BIGINT" },
  { metrics := gauges [
      { Namespace := PromNamespace, Subsystem := "sql_database",
        Name := "metric_count",
        Help := "Total number of metrics in the database." }],
    query := "select count(*)::bigint from _prom_catalog.metric" }
]

/-- `getMetric` from metrics.go: the dynamic type-switch over the collector's
runtime kind, returning the collector itself as a metric; `none` models the
`panic` of the default branch. -/
def getMetric : Collector → Option Collector
  | .gauge o => some (.gauge o)
  | .counter o => some (.counter o)
  | .other _ => none

def Collector.opts : Collector → Opts
  | .gauge o => o
  | .counter o => o
  | .other o => o

/-- Modelled from the spec: `prometheus.BuildFQName` — namespace, subsystem
and name joined by underscores, skipping empty parts; an empty name gives the
empty string. -/
def BuildFQName (namespaceStr subsystem name : String) : String :=
  if name = "" then ""
  else (if namespaceStr = "" then "" else namespaceStr ++ "_") ++
       (if subsystem = "" then "" else subsystem ++ "_") ++ name

/-- The description string of a declared metric: its fully qualified name. -/
def descOf (m : Collector) : String :=
  BuildFQName m.opts.Namespace m.opts.Subsystem m.opts.Name

/-- Modelled from the spec: `util.ExtractMetricDesc` — renders the metric's
identifying description for the administrative substring lookup "over
declared metric names"; extraction is modelled as always succeeding, with the
fully qualified metric name as the description. -/
def ExtractMetricDesc (m : Collector) : Except String String :=
  .ok (descOf m)

/-- Go's `strings.Contains`: `sub` occurs contiguously inside `s`. -/
def strContains (s sub : String) : Bool :=
  s.toList.tails.any (fun t => sub.toList.isPrefixOf t)

/-- The inner loop of `GetMetric` over one wrap's collectors.  The outer
`Option` is `none` when `getMetric` panics; `some (.error e)` is the early
error return, `some (.ok (some m))` the early found return, and
`some (.ok none)` is falling off the end of the loop. -/
def findInWrap (name : String) : List Collector → Option (Except String (Option Collector))
  | [] => some (.ok none)
  | c :: rest =>
    match getMetric c with
    | none => none
    | some metric =>
      match ExtractMetricDesc metric with
      | .error _ => some (.error "extract metric string")
      | .ok str =>
        if strContains str name then some (.ok (some metric))
        else findInWrap name rest

/-- The outer loop of `GetMetric` over the probe table: a wrap whose inner
loop falls through continues with the next wrap; any early outcome is final. -/
def GetMetricAux (name : String) : List metricQueryWrap → Option (Except String (Option Collector))
  | [] => some (.ok none)
  | w :: ws =>
    match findInWrap name w.metrics with
    | some (.ok none) => GetMetricAux name ws
    | r => r

/-- `GetMetric` from metrics.go: scan the declared probe table for the first
metric whose extracted description contains `name`; `some (.ok none)` is the
Go return `(nil, nil)` when nothing matches. -/
def GetMetric (name : String) : Option (Except String (Option Collector)) :=
  GetMetricAux name metrics

/-- The spec's description of the administrative lookup: the first metric, in
declaration order over the flattened probe table, whose description contains
`name` as a substring. -/
def specFirstMatch (name : String) : Option Collector :=
  ((metrics.map metricQueryWrap.metrics).flatten).find? (fun m => strContains (descOf m) name)

/-- Engine states all of whose stored dynamic values are `LabelInfo`s — the
states on which the assertion in `GetLabelsId` cannot panic. -/
def valuesTyped (c : clockcache.Cache) : Bool :=
  c.entries.all fun e => e.value.isInfo

/-- The invariant of adapter-reachable engine states: every entry stores a
`LabelInfo` under the adapter's weight formula, and the occupied weight is
within the engine's capacity. -/
def CacheInv (c : clockcache.Cache) : Prop :=
  (∀ e ∈ c.entries, (∃ i, e.value = CacheVal.info i) ∧ e.weight = e.key.len + 8 + 17)
  ∧ clockcache.occupied c.entries ≤ c.capacity

/-- Every collector in the declared probe table is a gauge or a counter, so
`getMetric` recognizes it. -/
lemma metrics_collectors_recognized :
    (metrics.all fun w => w.metrics.all fun m => (getMetric m).isSome) = true := by
  decide

/-- C1: `Put` forwards to the engine exactly the weight `putWeight key val`,
a pure function of `key` and `val` alone, equal to the byte length of the
metric name plus the label name plus the label value plus 8 (the encoded
id/position pair) plus 17 (constant bookkeeping overhead). -/
theorem put_weight_formula (key : LabelKey) (val : LabelInfo) :
    putWeight key val
      = goLen key.MetricName + goLen key.Name + goLen key.Value + 8 + 17
    ∧ ∀ c : InvertedLabelsCache,
        c.Put key val
          = ({ cache := (c.cache.Insert key (CacheVal.info val) (putWeight key val)).1 },
             (c.cache.Insert key (CacheVal.info val) (putWeight key val)).2.2) := by
  refine ⟨?_, fun c => rfl⟩
  simp [putWeight, LabelKey.len, LabelInfo.len]

/-- C2, counterexample: at the spec's worked example the adapter's weight is
not 54 — `"http_requests_total"` is 19 bytes long, not 20. -/
theorem put_weight_example_not_54 :
    putWeight (NewLabelKey "http_requests_total" "method" "GET") (NewLabelInfo 7 3) ≠ 54 := by
  decide

/-- C2, amended: the weight the adapter computes for the worked example is
19 + 6 + 3 + 8 + 17 = 53. -/
theorem put_weight_example_eq_53 :
    putWeight (NewLabelKey "http_requests_total" "method" "GET") (NewLabelInfo 7 3) = 53 := by
  decide

/-- C3: construction fails exactly on capacity 0 (the only non-positive
`uint64` value), with the declared configuration error; every positive
capacity yields the cache handle over a fresh engine, with no further
validation. -/
theorem newInvertedLablesCache_spec (size : Nat) :
    (size = 0 → NewInvertedLablesCache size = .error "labels cache size must be > 0")
    ∧ (0 < size → NewInvertedLablesCache size
        = .ok { cache := clockcache.WithMetrics "inverted_labels" "metric" size }) := by
  constructor
  · intro h; subst h; rfl
  · intro h
    rw [NewInvertedLablesCache, if_neg (by omega)]

/-- C3, witness: construction fails at capacity 0 and succeeds at 100. -/
theorem newInvertedLablesCache_spec_witness :
    NewInvertedLablesCache 0 = .error "labels cache size must be > 0"
    ∧ NewInvertedLablesCache 100
        = .ok { cache := clockcache.WithMetrics "inverted_labels" "metric" 100 } :=
  ⟨(newInvertedLablesCache_spec 0).1 rfl, (newInvertedLablesCache_spec 100).2 (by decide)⟩

/-- C6: the first probe of the declared table (and only the first) is the
health check: its query is `SELECT 1`, its collector list is exactly the one
health-check counter, and `isHealthCheck` is set; every later probe leaves
`isHealthCheck` unset. -/
theorem metrics_first_entry_health_check :
    metrics.head? = some
      { metrics := [Collector.counter
          { Namespace := PromNamespace, Subsystem := "sql_database",
            Name := "health_check_total",
            Help := "Total number of database health checks performed." }],
        query := "SELECT 1",
        isHealthCheck := true }
    ∧ (metrics.tail.all fun w => !w.isHealthCheck) = true := by
  exact ⟨rfl, rfl⟩

/-- C8: `getMetric` returns the metric itself on every gauge and counter and
panics (`none`) exactly on any other collector kind; every collector of the
declared probe table is a gauge or counter, so over the table the panic
branch is unreachable. -/
theorem getMetric_panic_characterization :
    (∀ o : Opts, getMetric (.gauge o) = some (.gauge o)
               ∧ getMetric (.counter o) = some (.counter o)
               ∧ getMetric (.other o) = none)
    ∧ (metrics.all fun w => w.metrics.all fun m => (getMetric m).isSome) = true :=
  ⟨fun _o => ⟨rfl, rfl, rfl⟩, metrics_collectors_recognized⟩

/-- On a recognized collector the type switch returns the collector itself. -/
lemma getMetric_eq_self {c : Collector} (h : (getMetric c).isSome = true) :
    getMetric c = some c := by
  cases c with
  | gauge o => rfl
  | counter o => rfl
  | other o => simp [getMetric] at h

/-- The inner loop of `GetMetric` is the first substring match over one
wrap's collectors, provided every collector is recognized. -/
lemma findInWrap_eq (name : String) (ms : List Collector)
    (h : (ms.all fun m => (getMetric m).isSome) = true) :
    findInWrap name ms = some (.ok (ms.find? fun m => strContains (descOf m) name)) := by
  induction ms with
  | nil => rfl
  | cons c rest ih =>
    simp only [List.all_cons, Bool.and_eq_true] at h
    rw [findInWrap, getMetric_eq_self h.1]
    by_cases hc : strContains (descOf c) name
    · simp [ExtractMetricDesc, hc]
    · simp [ExtractMetricDesc, hc, ih h.2]

/-- The outer loop of `GetMetric` is the first substring match over the
flattened table, provided every collector is recognized. -/
lemma getMetricAux_eq (name : String) (ws : List metricQueryWrap)
    (h : (ws.all fun w => w.metrics.all fun m => (getMetric m).isSome) = true) :
    GetMetricAux name ws
      = some (.ok (((ws.map metricQueryWrap.metrics).flatten).find?
          fun m => strContains (descOf m) name)) := by
  induction ws with
  | nil => rfl
  | cons w rest ih =>
    simp only [List.all_cons, Bool.and_eq_true] at h
    have h1 := findInWrap_eq name w.metrics h.1
    cases hf : (w.metrics.find? fun m => strContains (descOf m) name) with
    | none =>
      rw [hf] at h1
      simp [GetMetricAux, h1, ih h.2, hf]
    | some m =>
      rw [hf] at h1
      simp [GetMetricAux, h1, hf]

/-- C7: for every name, `GetMetric` finishes without panic or error and
returns exactly the first metric — scanning the probe table's entries and
each entry's collectors in declaration order — whose description contains the
name as a substring; being a pure function of the declared table, it modifies
no state. -/
theorem getMetric_first_match (name : String) :
    GetMetric name = some (.ok (specFirstMatch name)) := by
  rw [GetMetric, getMetricAux_eq name metrics metrics_collectors_recognized, specFirstMatch]

/-- C10: when no declared metric's description contains the supplied name,
`GetMetric` returns Go's `(nil, nil)` — a nil metric together with a nil
error — so absence is not reported through the error value. -/
theorem getMetric_absent_returns_nil_nil (name : String)
    (h : (((metrics.map metricQueryWrap.metrics).flatten).all
          fun m => !(strContains (descOf m) name)) = true) :
    GetMetric name = some (.ok none) := by
  rw [GetMetric, getMetricAux_eq name metrics metrics_collectors_recognized]
  have hn : (((metrics.map metricQueryWrap.metrics).flatten).find?
      fun m => strContains (descOf m) name) = none := by
    rw [List.find?_eq_none]
    intro x hx
    have hx2 := (List.all_eq_true.mp h) x hx
    simpa using hx2
  rw [hn]

/-- C10, witness: no declared description contains `no_such_metric_name`, and
the lookup returns the nil/nil pair. -/
theorem getMetric_absent_returns_nil_nil_witness :
    GetMetric "no_such_metric_name" = some (.ok none) :=
  getMetric_absent_returns_nil_nil "no_such_metric_name" (by decide)

/-- Occupied weight is additive over concatenation. -/
lemma occupied_append (l1 l2 : List clockcache.CacheEntry) :
    clockcache.occupied (l1 ++ l2)
      = clockcache.occupied l1 + clockcache.occupied l2 := by
  induction l1 with
  | nil => simp [clockcache.occupied]
  | cons e l ih => simp [clockcache.occupied, ih]; omega

/-- A map that keeps every member's weight keeps the occupied weight. -/
lemma occupied_map_of_weight_eq (f : clockcache.CacheEntry → clockcache.CacheEntry)
    (l : List clockcache.CacheEntry) (h : ∀ e ∈ l, (f e).weight = e.weight) :
    clockcache.occupied (l.map f) = clockcache.occupied l := by
  induction l with
  | nil => rfl
  | cons e l ih =>
    simp only [List.map_cons, clockcache.occupied]
    rw [h e (by simp), ih (fun x hx => h x (by simp [hx]))]

/-- Eviction only removes entries or clears recency flags: any property of
key, value and weight carries over from the input entries to the output. -/
lemma evict_preserves (cap w : Nat) (l : List clockcache.CacheEntry)
    (P : LabelKey → CacheVal → Nat → Prop) :
    (∀ e ∈ l, P e.key e.value e.weight) →
      ∀ e ∈ clockcache.evict cap w l, P e.key e.value e.weight := by
  induction l using clockcache.evict.induct cap w with
  | case1 => simp [clockcache.evict]
  | case2 e rest hle => intro h; simpa [clockcache.evict, hle] using h
  | case3 e rest hle hf ih =>
    intro h
    rw [clockcache.evict, if_neg hle, if_pos hf]
    refine ih ?_
    intro x hx
    rcases List.mem_append.mp hx with hx | hx
    · exact h x (List.mem_cons_of_mem _ hx)
    · simp only [List.mem_singleton] at hx
      subst hx
      exact h e (List.mem_cons_self _ _)
  | case4 e rest hle hf ih =>
    intro h
    rw [clockcache.evict, if_neg hle, if_neg hf]
    exact ih (fun x hx => h x (List.mem_cons_of_mem _ hx))

/-- The eviction loop frees enough weight: if the incoming entry fits in the
whole capacity, the surviving entries plus the new weight fit in capacity. -/
lemma evict_occupied (cap w : Nat) (l : List clockcache.CacheEntry) (hw : w ≤ cap) :
    clockcache.occupied (clockcache.evict cap w l) + w ≤ cap := by
  induction l using clockcache.evict.induct cap w with
  | case1 => simp [clockcache.evict, clockcache.occupied]; omega
  | case2 e rest hle => simp [clockcache.evict, hle]
  | case3 e rest hle hf ih => simpa [clockcache.evict, hle, hf] using ih
  | case4 e rest hle hf ih => simpa [clockcache.evict, hle, hf] using ih

/-- The adapter's weight formula, with the value's constant length inlined. -/
lemma putWeight_eq (key : LabelKey) (val : LabelInfo) :
    putWeight key val = key.len + 8 + 17 := rfl

/-- The engine's `Get` preserves the adapter invariant and the capacity. -/
lemma inv_get (c : clockcache.Cache) (key : LabelKey) (h : CacheInv c) :
    CacheInv (c.Get key).1 ∧ (c.Get key).1.capacity = c.capacity := by
  unfold clockcache.Cache.Get
  cases hf : c.entries.find? (fun e => e.key == key) with
  | none => exact ⟨h, rfl⟩
  | some e =>
    refine ⟨⟨?_, ?_⟩, rfl⟩
    · intro x hx
      simp only at hx
      rcases List.mem_map.mp hx with ⟨y, hy, rfl⟩
      have hok := h.1 y hy
      by_cases hk : y.key == key <;> simpa [hk] using hok
    · simp only
      rw [occupied_map_of_weight_eq]
      · exact h.2
      · intro x _
        by_cases hk : x.key == key <;> simp [hk]

/-- An adapter-weighted `Insert` preserves the invariant and the capacity. -/
lemma inv_insert (c : clockcache.Cache) (key : LabelKey) (val : LabelInfo)
    (h : CacheInv c) :
    CacheInv (c.Insert key (CacheVal.info val) (putWeight key val)).1
    ∧ (c.Insert key (CacheVal.info val) (putWeight key val)).1.capacity = c.capacity := by
  unfold clockcache.Cache.Insert
  by_cases hcap : c.capacity < putWeight key val
  · rw [if_pos hcap]
    exact ⟨h, rfl⟩
  · rw [if_neg hcap]
    cases hf : c.entries.find? (fun e => e.key == key) with
    | some old =>
      refine ⟨⟨?_, ?_⟩, rfl⟩
      · intro x hx
        simp only at hx
        rcases List.mem_map.mp hx with ⟨y, hy, rfl⟩
        by_cases hk : y.key == key
        · have hkey : y.key = key := by simpa using hk
          refine ⟨?_, ?_⟩ <;> simp [hk, putWeight_eq, hkey]
        · simpa [hk] using h.1 y hy
      · simp only
        rw [occupied_map_of_weight_eq]
        · exact h.2
        · intro x hx
          by_cases hk : x.key == key
          · have hkey : x.key = key := by simpa using hk
            have hw := (h.1 x hx).2
            simp [hk, putWeight_eq, hw, hkey]
          · simp [hk]
    | none =>
      refine ⟨⟨?_, ?_⟩, rfl⟩
      · intro x hx
        simp only at hx
        rcases List.mem_append.mp hx with hx | hx
        · exact evict_preserves c.capacity (putWeight key val) c.entries
            (fun k v w => (∃ i, v = CacheVal.info i) ∧ w = k.len + 8 + 17)
            h.1 x hx
        · simp only [List.mem_singleton] at hx
          subst hx
          exact ⟨⟨val, rfl⟩, putWeight_eq key val⟩
      · simp only
        rw [occupied_append]
        have h1 := evict_occupied c.capacity (putWeight key val) c.entries
          (Nat.le_of_not_lt hcap)
        simp only [clockcache.occupied]
        omega

/-- The post-state of one public adapter operation keeps the invariant and
the capacity. -/
lemma inv_applyOp (c : InvertedLabelsCache) (op : CacheOp) (h : CacheInv c.cache) :
    CacheInv (applyOp c op).cache ∧ (applyOp c op).cache.capacity = c.cache.capacity := by
  cases op with
  | put key val =>
    have hi := inv_insert c.cache key val h
    simpa [applyOp, InvertedLabelsCache.Put] using hi
  | lookup key =>
    have hg := inv_get c.cache key h
    simp only [applyOp, InvertedLabelsCache.GetLabelsId]
    rcases hget : c.cache.Get key with ⟨cache2, vOpt⟩
    rw [hget] at hg
    cases vOpt with
    | none => exact ⟨h, rfl⟩
    | some id =>
      cases id with
      | info i => exact hg
      | other t => exact ⟨h, rfl⟩

/-- Folding public operations from an invariant state keeps the invariant
and the capacity. -/
lemma inv_foldl (ops : List CacheOp) :
    ∀ c : InvertedLabelsCache, CacheInv c.cache →
      CacheInv (ops.foldl applyOp c).cache
      ∧ (ops.foldl applyOp c).cache.capacity = c.cache.capacity := by
  induction ops with
  | nil => exact fun c h => ⟨h, rfl⟩
  | cons op rest ih =>
    intro c h
    have h1 := inv_applyOp c op h
    have h2 := ih (applyOp c op) h1.1
    simp only [List.foldl_cons]
    exact ⟨h2.1, h2.2.trans h1.2⟩

/-- Every state reachable through the adapter's public interface satisfies
the invariant, and the engine's capacity stays the constructed size. -/
lemma inv_runOps (size : Nat) (ops : List CacheOp) :
    CacheInv (runOps size ops).cache ∧ (runOps size ops).cache.capacity = size := by
  have h0 : CacheInv ({ cache := clockcache.WithMetrics "inverted_labels" "metric" size } :
      InvertedLabelsCache).cache := by
    refine ⟨?_, ?_⟩
    · intro e he
      simp [clockcache.WithMetrics] at he
    · simp [clockcache.WithMetrics, clockcache.occupied]
  exact inv_foldl ops _ h0

/-- The exact lookup behavior of `GetLabelsId` on any engine state whose
stored values are all `LabelInfo`s: a hit returns the stored info with
`true`, a miss returns the zero info with `false`, and the result is never
the panic (`none`). -/
lemma getLabelsId_spec (c : InvertedLabelsCache) (key : LabelKey)
    (h : ∀ e ∈ c.cache.entries, ∃ i, e.value = CacheVal.info i) :
    match c.cache.entries.find? (fun e => e.key == key) with
    | some e => ∃ i, e.value = CacheVal.info i
        ∧ c.GetLabelsId key = some ({ cache := (c.cache.Get key).1 }, i, true)
    | none => c.GetLabelsId key = some (c, { LabelID := 0, Pos := 0 }, false) := by
  cases hf : c.cache.entries.find? (fun e => e.key == key) with
  | none =>
    simp [InvertedLabelsCache.GetLabelsId, clockcache.Cache.Get, hf]
  | some e =>
    obtain ⟨i, hi⟩ := h e (List.mem_of_find?_eq_some hf)
    refine ⟨i, hi, ?_⟩
    simp [InvertedLabelsCache.GetLabelsId, clockcache.Cache.Get, hf, hi]

/-- C4: on every engine state whose stored values are `LabelInfo`s,
`GetLabelsId` is total and never fails: a hit returns the stored info and
`true`; a miss returns the zero `LabelInfo` and `false`; absence is reported
only through the boolean. -/
theorem getLabelsId_total (c : InvertedLabelsCache) (key : LabelKey)
    (h : valuesTyped c.cache = true) :
    match c.cache.entries.find? (fun e => e.key == key) with
    | some e => ∃ i, e.value = CacheVal.info i
        ∧ c.GetLabelsId key = some ({ cache := (c.cache.Get key).1 }, i, true)
    | none => c.GetLabelsId key = some (c, { LabelID := 0, Pos := 0 }, false) := by
  apply getLabelsId_spec
  intro e he
  have hall := (List.all_eq_true.mp (by simpa [valuesTyped] using h)) e he
  cases hv : e.value with
  | info i => exact ⟨i, rfl⟩
  | other t => simp [CacheVal.isInfo, hv] at hall

/-- C4, witness: on a concrete one-entry engine state holding a stored
`LabelInfo`, the lookup of that key hits and returns the stored info with
`true`. -/
theorem getLabelsId_total_witness :
    match (⟨⟨100, [⟨NewLabelKey "m" "l" "v", CacheVal.info (NewLabelInfo 7 3), 28, true⟩]⟩⟩ : InvertedLabelsCache).cache.entries.find? (fun e => e.key == NewLabelKey "m" "l" "v") with
    | some e => ∃ i, e.value = CacheVal.info i
        ∧ (⟨⟨100, [⟨NewLabelKey "m" "l" "v", CacheVal.info (NewLabelInfo 7 3), 28, true⟩]⟩⟩ : InvertedLabelsCache).GetLabelsId (NewLabelKey "m" "l" "v")
          = some (⟨((⟨⟨100, [⟨NewLabelKey "m" "l" "v", CacheVal.info (NewLabelInfo 7 3), 28, true⟩]⟩⟩ : InvertedLabelsCache).cache.Get (NewLabelKey "m" "l" "v")).1⟩, i, true)
    | none => (⟨⟨100, [⟨NewLabelKey "m" "l" "v", CacheVal.info (NewLabelInfo 7 3), 28, true⟩]⟩⟩ : InvertedLabelsCache).GetLabelsId (NewLabelKey "m" "l" "v")
        = some ((⟨⟨100, [⟨NewLabelKey "m" "l" "v", CacheVal.info (NewLabelInfo 7 3), 28, true⟩]⟩⟩ : InvertedLabelsCache), { LabelID := 0, Pos := 0 }, false) :=
  getLabelsId_total (⟨⟨100, [⟨NewLabelKey "m" "l" "v", CacheVal.info (NewLabelInfo 7 3), 28, true⟩]⟩⟩ : InvertedLabelsCache) (NewLabelKey "m" "l" "v") (by decide)

/-- C5: after every completed sequence of public adapter operations (lookups
and insertions) from a fresh cache, the engine's occupied weight is at most
its fixed capacity, and that capacity is the constructed size — no overshoot
of an insert's eviction loop persists after the call returns. -/
theorem occupied_le_capacity_after_ops (size : Nat) (ops : List CacheOp) :
    clockcache.occupied (runOps size ops).cache.entries
      ≤ (runOps size ops).cache.capacity
    ∧ (runOps size ops).cache.capacity = size := by
  have h := inv_runOps size ops
  exact ⟨h.1.2, h.2⟩

/-- C9: on every cache populated only through the adapter's public interface,
each value held by the engine is a `LabelInfo`, so the dynamic assertion in
`GetLabelsId` always succeeds: the lookup never panics. -/
theorem getLabelsId_never_panics (size : Nat) (ops : List CacheOp) (key : LabelKey) :
    ((runOps size ops).GetLabelsId key).isSome = true := by
  have hinv := inv_runOps size ops
  have h : ∀ e ∈ (runOps size ops).cache.entries, ∃ i, e.value = CacheVal.info i :=
    fun e he => (hinv.1.1 e he).1
  have hs := getLabelsId_spec (runOps size ops) key h
  cases hf : (runOps size ops).cache.entries.find? (fun e => e.key == key) with
  | none =>
    rw [hf] at hs
    rw [hs]
    rfl
  | some e =>
    rw [hf] at hs
    obtain ⟨i, _, heq⟩ := hs
    rw [heq]
    rfl
